import Mathlib

/-!
Verification development for the external-mdns resource-to-record
synchronization engine.  The definitions below are a shallow embedding of
the Go source (`cmd/man.go`, the ingress source adapter, and the consumer
loop of `run`): machine integers become `Nat`, byte slices become
`List Nat`, fallible functions return `Option`, and the mDNS responder is
modelled as an oracle returning an optional error per record line.
-/

namespace ExternalMdns

/-! ## Embedding of Go `net.ParseIP` (via `netip.ParseAddr`)

`ParseIP` dispatches on the first of `.`, `:`, `%` found in the string:
`.` selects the dotted-decimal IPv4 grammar, `:` the IPv6 grammar, `%`
is rejected (and a nonempty zone suffix is rejected by `ParseIP` even
when `ParseAddr` accepts it, so any `%` means failure).  A parsed
address is always represented as 16 bytes, IPv4 in IPv4-mapped form. -/

/-- Embedding of the IPv4 field loop of `netip.parseIPv4`: `chars` is the
remaining input, `val` the value of the current field, `digLen` the number
of digits consumed in the current field, `fields` the completed fields.
Rejects leading zeros, fields above 255, empty fields, and anything other
than exactly four fields. -/
def parseIPv4Go : List Char → Nat → Nat → List Nat → Option (List Nat)
  | [], val, _, fields =>
      if fields.length < 3 then none
      else some (fields ++ [val])
  | c :: rest, val, digLen, fields =>
      if c = '.' then
        if digLen = 0 then none
        else if rest.isEmpty then none
        else if fields.length = 3 then none
        else parseIPv4Go rest 0 0 (fields ++ [val])
      else if c.isDigit then
        if digLen = 1 ∧ val = 0 then none
        else
          let val' := val * 10 + (c.toNat - '0'.toNat)
          if val' > 255 then none
          else parseIPv4Go rest val' (digLen + 1) fields
      else none

/-- Value of one hex digit, as in the group loop of `netip.parseIPv6`. -/
def hexVal (c : Char) : Option Nat :=
  if '0' ≤ c ∧ c ≤ '9' then some (c.toNat - '0'.toNat)
  else if 'a' ≤ c ∧ c ≤ 'f' then some (c.toNat - 'a'.toNat + 10)
  else if 'A' ≤ c ∧ c ≤ 'F' then some (c.toNat - 'A'.toNat + 10)
  else none

/-- Embedding of the hex-group scan of `netip.parseIPv6`: consumes hex
digits, accumulating their value, stopping at the first non-hex character;
fails when the accumulated value exceeds `0xFFFF`.  Returns the value, the
number of digits consumed, and the remaining input. -/
def readHexGroup : List Char → Nat → Nat → Option (Nat × Nat × List Char)
  | [], acc, off => some (acc, off, [])
  | c :: rest, acc, off =>
      match hexVal c with
      | some v =>
          let acc' := acc * 16 + v
          if acc' > 65535 then none
          else readHexGroup rest acc' (off + 1)
      | none => some (acc, off, c :: rest)

/-- Embedding of the main loop of `netip.parseIPv6`, working in 16-bit
groups (Go indexes bytes; a group is two bytes, so Go's byte index `i` is
twice the group count and its ellipsis byte position is twice the group
position recorded here).  `acc` holds the completed groups, `ell` the
position of `::` if seen.  Returns the groups, the ellipsis position and
the unconsumed input.  The fuel argument strictly exceeds the input
length, and every recursive call consumes at least one character, so the
fuel never runs out. -/
def v6loop : Nat → List Char → List Nat → Option Nat → Option (List Nat × Option Nat × List Char)
  | 0, _, _, _ => none
  | fuel + 1, s, acc, ell =>
      if 8 ≤ acc.length then some (acc, ell, s)
      else
        match readHexGroup s 0 0 with
        | none => none
        | some (g, off, rest) =>
          if off = 0 then none
          else if rest.head? = some '.' then
            if ell.isNone ∧ acc.length ≠ 6 then none
            else if acc.length + 2 > 8 then none
            else
              match parseIPv4Go s 0 0 [] with
              | some [a, b, c, d] => some (acc ++ [a * 256 + b, c * 256 + d], ell, [])
              | _ => none
          else
            let acc' := acc ++ [g]
            match rest with
            | [] => some (acc', ell, [])
            | c :: rest2 =>
              if c = ':' then
                match rest2 with
                | [] => none
                | c2 :: rest3 =>
                  if c2 = ':' then
                    if ell.isSome then none
                    else if rest3.isEmpty then some (acc', some acc'.length, [])
                    else v6loop fuel rest3 acc' (some acc'.length)
                  else v6loop fuel rest2 acc' ell
              else none

/-- Expansion of 16-bit groups into bytes (big-endian within a group). -/
def groupsToBytes (gs : List Nat) : List Nat :=
  gs.flatMap fun g => [g / 256, g % 256]

/-- Embedding of the post-loop phase of `netip.parseIPv6`: trailing input
is an error; a short address requires an ellipsis, which expands to the
missing zero groups at its position; a full 16-byte address with an
ellipsis is an error (`::` must stand for at least one zero group). -/
def v6finish : Option (List Nat × Option Nat × List Char) → Option (List Nat)
  | none => none
  | some (acc, ell, rest) =>
      if rest ≠ [] then none
      else if acc.length < 8 then
        match ell with
        | none => none
        | some e =>
            some (groupsToBytes (acc.take e ++ List.replicate (8 - acc.length) 0 ++ acc.drop e))
      else
        match ell with
        | some _ => none
        | none => some (groupsToBytes acc)

/-- Embedding of `netip.parseIPv6` for zone-free input (a `%` anywhere
means `ParseIP` fails, either inside `parseIPv6` for an empty zone or at
the `Zone() != ""` rejection in `parseIP`).  A leading `::` is consumed
before the main loop; bare `::` is the all-zero address. -/
def parseIPv6Go (s : List Char) : Option (List Nat) :=
  if s.contains '%' then none
  else
    match s with
    | c1 :: c2 :: rest =>
        if c1 = ':' ∧ c2 = ':' then
          if rest.isEmpty then some (List.replicate 16 0)
          else v6finish (v6loop (rest.length + 1) rest [] (some 0))
        else v6finish (v6loop (s.length + 1) s [] none)
    | _ => v6finish (v6loop (s.length + 1) s [] none)

/-- First occurrence of one of the dispatch characters of
`netip.ParseAddr`. -/
def firstSpecial : List Char → Option Char
  | [] => none
  | c :: rest => if c = '.' ∨ c = ':' ∨ c = '%' then some c else firstSpecial rest

/-- The IPv4-mapped 16-byte form produced for a parsed IPv4 address
(`netip.Addr.As16`). -/
def v4Mapped (a b c d : Nat) : List Nat :=
  [0, 0, 0, 0, 0, 0, 0, 0, 0, 0, 255, 255, a, b, c, d]

/-- Embedding of Go `net.ParseIP`: dispatch on the first special
character, produce 16 bytes, `none` on any parse failure. -/
def parseIPGo (s : String) : Option (List Nat) :=
  match firstSpecial s.data with
  | none => none
  | some sp =>
      if sp = '.' then
        match parseIPv4Go s.data 0 0 [] with
        | some [a, b, c, d] => some (v4Mapped a b c d)
        | _ => none
      else if sp = ':' then parseIPv6Go s.data
      else none

/-- Embedding of the test `ip.To4() != nil` on a parsed address, as in
`net.IP.To4`: length 16, ten leading zero bytes, then `0xff 0xff`. -/
def isV4Mapped (ip : List Nat) : Bool :=
  ip.length == 16 && (ip.take 10).all (fun b => b == 0) &&
    ip.getD 10 0 == 255 && ip.getD 11 0 == 255

/-! ## Embedding of `net.IP.String` (record rdata rendering) -/

/-- Lowercase hex rendering without leading zeros, as Go's `appendHex`. -/
def natToHex (n : Nat) : String :=
  (Nat.toDigits 16 n).asString

/-- Byte pairs of an address as 16-bit groups. -/
def pairBytes : List Nat → List Nat
  | a :: b :: rest => (a * 256 + b) :: pairBytes rest
  | _ => []

/-- Length of the zero-group run starting at the head. -/
def zeroRunLen : List Nat → Nat
  | 0 :: rest => zeroRunLen rest + 1
  | _ => 0

/-- Leftmost longest zero-group run (start index and length); mirrors the
`e0`/`e1` scan of `net.IP.String`, where only a strictly longer run
replaces the current best. -/
def bestZeroRun : List Nat → Nat → Nat × Nat → Nat × Nat
  | [], _, best => best
  | g :: rest, i, (bs, bl) =>
      let l := zeroRunLen (g :: rest)
      bestZeroRun rest (i + 1) (if bl < l then (i, l) else (bs, bl))

/-- IPv6 textual form as produced by `net.IP.String`: hex groups joined
by `:`, with the leftmost longest run of two or more zero groups
compressed to `::`. -/
def v6String (ip : List Nat) : String :=
  let gs := pairBytes ip
  let best := bestZeroRun gs 0 (0, 0)
  if best.2 ≥ 2 then
    String.intercalate ":" ((gs.take best.1).map natToHex) ++ "::" ++
      String.intercalate ":" ((gs.drop (best.1 + best.2)).map natToHex)
  else
    String.intercalate ":" (gs.map natToHex)

/-- Embedding of `net.IP.String` on the 16-byte addresses produced by the
parser: dotted decimal of bytes 12..15 for IPv4-mapped addresses (Go's
`To4` slice), IPv6 text otherwise. -/
def ipToString (ip : List Nat) : String :=
  if isV4Mapped ip then
    Nat.repr (ip.getD 12 0) ++ "." ++ Nat.repr (ip.getD 13 0) ++ "." ++
      Nat.repr (ip.getD 14 0) ++ "." ++ Nat.repr (ip.getD 15 0)
  else v6String ip

/-! ## Embedding of `reverseAddress` (cmd/man.go) -/

/-- The `hexDigit` constant of cmd/man.go. -/
def hexDigitChars : List Char :=
  ("0123456789abcdef").data

/-- Indexing into `hexDigit`; every index produced by `reverseAddress`
is below 16, so the default is never reached. -/
def hexChar (n : Nat) : Char :=
  hexDigitChars.getD n '0'

/-- Embedding of `reverseAddress`: parse the address; IPv4 (`To4` non-nil)
yields the four octets reversed via `net.IPv4(ip[15],ip[14],ip[13],ip[12]).String()`
plus `.in-addr.arpa.`; otherwise the bytes are walked from the end, low
nibble then high nibble, each followed by a dot, plus `ip6.arpa.`.
`none` stands for Go's `("", err)` result. -/
def reverseAddress (addr : String) : Option String :=
  match parseIPGo addr with
  | none => none
  | some ip =>
      if isV4Mapped ip then
        some (Nat.repr (ip.getD 15 0) ++ "." ++ Nat.repr (ip.getD 14 0) ++ "." ++
          Nat.repr (ip.getD 13 0) ++ "." ++ Nat.repr (ip.getD 12 0) ++ ".in-addr.arpa.")
      else
        some (String.mk (ip.reverse.flatMap fun v =>
          [hexChar (v % 16), '.', hexChar (v / 16), '.']) ++ "ip6.arpa.")

/-! ## Data model: Entity Snapshot and policy configuration -/

/-- Modelled from the spec: the `resource.Resource` entity snapshot of the
`cmd/mdns/resource` package, whose file is not under src/; its fields and
their uses are fixed by cmd/man.go and the ingress adapter (sourceType,
action, names, namespace, ips, per-entity without-namespace override). -/
structure Resource where
  SourceType : String
  Action : String
  Names : List String
  Namespace : String
  IPs : List String
  WithoutNamespace : Bool
  deriving DecidableEq, Repr

/-- Modelled from the spec: the `resource.Added` action constant; the
literal value is irrelevant, only its distinctness from the others. -/
def ActionAdded : String := "ADDED"

/-- Modelled from the spec: the `resource.Updated` action constant. -/
def ActionUpdated : String := "UPDATED"

/-- Modelled from the spec: the `resource.Deleted` action constant. -/
def ActionDeleted : String := "DELETED"

/-- The policy configuration read through viper in cmd/man.go, passed
explicitly here: IPv4/IPv6 publication switches, record TTL, the global
without-namespace flag and the default namespace. -/
structure Config where
  exposeIPv4 : Bool
  exposeIPv6 : Bool
  recordTTL : Nat
  withoutNamespace : Bool
  defaultNamespace : String
  deriving DecidableEq, Repr

/-! ## Embedding of `constructRecords` (cmd/man.go) -/

/-- Forward record in the dot-qualified form
`<name>.<namespace>.local. <ttl> IN <type> <ip>`. -/
def fwdDot (nm ns : String) (ttl : Nat) (rt ipS : String) : String :=
  nm ++ "." ++ ns ++ ".local. " ++ Nat.repr ttl ++ " IN " ++ rt ++ " " ++ ipS

/-- Forward record in the hyphen-qualified form
`<name>-<namespace>.local. <ttl> IN <type> <ip>`. -/
def fwdHy (nm ns : String) (ttl : Nat) (rt ipS : String) : String :=
  nm ++ "-" ++ ns ++ ".local. " ++ Nat.repr ttl ++ " IN " ++ rt ++ " " ++ ipS

/-- Reverse record whose rdata is the dot-qualified hostname. -/
def ptrDot (rev : String) (ttl : Nat) (nm ns : String) : String :=
  rev ++ " " ++ Nat.repr ttl ++ " IN PTR " ++ nm ++ "." ++ ns ++ ".local."

/-- Reverse record whose rdata is the hyphen-qualified hostname. -/
def ptrHy (rev : String) (ttl : Nat) (nm ns : String) : String :=
  rev ++ " " ++ Nat.repr ttl ++ " IN PTR " ++ nm ++ "-" ++ ns ++ ".local."

/-- Unqualified forward record `<name>.local. <ttl> IN <type> <ip>`. -/
def fwdUn (nm : String) (ttl : Nat) (rt ipS : String) : String :=
  nm ++ ".local. " ++ Nat.repr ttl ++ " IN " ++ rt ++ " " ++ ipS

/-- Reverse record whose rdata is the unqualified hostname. -/
def ptrUn (rev : String) (ttl : Nat) (nm : String) : String :=
  rev ++ " " ++ Nat.repr ttl ++ " IN PTR " ++ nm ++ ".local."

/-- Record type chosen for an address, `none` when that family's
publication is disabled (the `continue` branches of `constructRecords`). -/
def recordTypeFor (cfg : Config) (ip : List Nat) : Option String :=
  if isV4Mapped ip then
    if cfg.exposeIPv4 then some "A" else none
  else
    if cfg.exposeIPv6 then some "AAAA" else none

/-- The condition of cmd/man.go line 161 under which the unqualified
records are additionally published. -/
def unqualCond (cfg : Config) (r : Resource) : Bool :=
  (r.Namespace == cfg.defaultNamespace) || r.WithoutNamespace ||
    cfg.withoutNamespace || (r.SourceType == "ingress")

/-- Records contributed by one entry of `r.IPs` in the loop of
`constructRecords`: skip unparsable addresses and disabled families;
always emit the dot- and hyphen-qualified forward records per name, plus
the two reverse records when the reverse zone name is nonempty; emit the
unqualified forms when `unqualCond` holds. -/
def recordsForIP (cfg : Config) (r : Resource) (resourceIP : String) : List String :=
  match parseIPGo resourceIP with
  | none => []
  | some ip =>
      let reverseIP := (reverseAddress resourceIP).getD ""
      match recordTypeFor cfg ip with
      | none => []
      | some recordType =>
          let ipS := ipToString ip
          (r.Names.flatMap fun name =>
            [fwdDot name r.Namespace cfg.recordTTL recordType ipS,
             fwdHy name r.Namespace cfg.recordTTL recordType ipS] ++
            (if reverseIP ≠ "" then
              [ptrDot reverseIP cfg.recordTTL name r.Namespace,
               ptrHy reverseIP cfg.recordTTL name r.Namespace]
            else [])) ++
          (if unqualCond cfg r then
            r.Names.flatMap fun name =>
              [fwdUn name cfg.recordTTL recordType ipS] ++
              (if reverseIP ≠ "" then [ptrUn reverseIP cfg.recordTTL name] else [])
          else [])

/-- Embedding of `constructRecords`: iterate the snapshot's addresses in
order, appending each address's contribution. -/
def constructRecords (cfg : Config) (r : Resource) : List String :=
  r.IPs.flatMap (recordsForIP cfg r)

/-! ## Embedding of the ingress source adapter -/

/-- One rule of an Ingress spec (`Spec.Rules[*].Host`). -/
structure IngressRule where
  Host : String
  deriving DecidableEq, Repr

/-- One load-balancer status entry (`Status.LoadBalancer.Ingress[*].IP`). -/
structure LBIngress where
  IP : String
  deriving DecidableEq, Repr

/-- The parts of a Kubernetes Ingress object read by `buildRecords`. -/
structure Ingress where
  Namespace : String
  Rules : List IngressRule
  LoadBalancerIPs : List LBIngress
  deriving DecidableEq, Repr

/-- Dot-splitting of a hostname into labels (the accumulator holds the
current label reversed). -/
def splitDotAux : List Char → List Char → List String
  | [], cur => [String.mk cur.reverse]
  | c :: rest, cur =>
      if c = '.' then String.mk cur.reverse :: splitDotAux rest []
      else splitDotAux rest (c :: cur)

/-- Labels of a hostname, split on dots. -/
def splitOnDot (s : String) : List String :=
  splitDotAux s.data []

/-- The `.local` suffix test of `buildRecords`
(`strings.HasSuffix(rule.Host, ".local")`). -/
def hasLocalSuffix (host : String) : Bool :=
  (".local").data.isSuffixOf host.data

/-- Modelled from the spec: the third-party `tld.Parse` hostname split
(the `go-tld` library is not part of this repository).  Per the spec's
adapter contract, the host is split into subdomain and base-domain parts
around the final suffix label; a missing base label is a parse error, and
errors cause the rule to be skipped.  Returns `(Subdomain, Domain)`. -/
def tldParseModel (host : String) : Option (String × String) :=
  let labels := splitOnDot host
  if labels.length < 2 then none
  else
    let domain := labels.getD (labels.length - 2) ""
    if domain = "" then none
    else some (String.intercalate "." (labels.take (labels.length - 2)), domain)

/-- Embedding of `IngressSource.buildRecords`: collect the nonempty
load-balancer IPs (no IPs means no snapshots); for each rule whose host is
nonempty and ends in `.local`, derive the hostname from the parsed
subdomain and domain parts and emit one snapshot carrying the full IP
list; rules that fail to parse are skipped. -/
def buildRecords (ingress : Ingress) (action : String) : List Resource :=
  let ipFields := (ingress.LoadBalancerIPs.filter fun lb => lb.IP ≠ "").map fun lb => lb.IP
  if ipFields.isEmpty then []
  else
    ingress.Rules.flatMap fun rule =>
      if rule.Host = "" ∨ ¬ (hasLocalSuffix rule.Host) then []
      else
        match tldParseModel rule.Host with
        | none => []
        | some (sub, dom) =>
            let hostname := if sub ≠ "" then sub ++ "." ++ dom else dom
            [{ SourceType := "ingress", Action := action, Names := [hostname],
               Namespace := ingress.Namespace, IPs := ipFields, WithoutNamespace := false }]

/-- Embedding of `IngressSource.onUpdate`: snapshots built from the old
object are sent first with action Deleted, then snapshots built from the
new object with action Added (both builds pass `resource.Updated`, which
is overwritten before sending). -/
def onUpdateEmissions (oldObj newObj : Ingress) : List Resource :=
  ((buildRecords oldObj ActionUpdated).map fun r => { r with Action := ActionDeleted }) ++
    ((buildRecords newObj ActionUpdated).map fun r => { r with Action := ActionAdded })

/-! ## Embedding of the consumer loop and dispatcher (`run`, cmd/man.go) -/

/-- A call issued to the external mDNS responder. -/
inductive MdnsOp where
  | publish (rec : String)
  | unpublish (rec : String)
  deriving DecidableEq, Repr

/-- True for a publish call. -/
def MdnsOp.isPublish : MdnsOp → Bool
  | .publish _ => true
  | .unpublish _ => false

/-- Responder calls issued for one snapshot by the consumer loop: empty
record strings are skipped; action Added publishes, Deleted unpublishes,
any other action falls through the switch and issues nothing. -/
def dispatchResource (cfg : Config) (r : Resource) : List MdnsOp :=
  (constructRecords cfg r).flatMap fun record =>
    if record = "" then []
    else if r.Action == ActionAdded then [MdnsOp.publish record]
    else if r.Action == ActionDeleted then [MdnsOp.unpublish record]
    else []

/-- Responder calls issued by the single consumer draining the pipeline
in FIFO order, fully dispatching each snapshot before the next. -/
def consumerOps (cfg : Config) (rs : List Resource) : List MdnsOp :=
  rs.flatMap (dispatchResource cfg)

/-- Embedding of the consumer loop with a fallible responder:
`pubErr`/`unpubErr` give the error returned by `mdns.Publish` and
`mdns.UnPublish` on a record line (`none` for success).
`publishRecord`/`unpublishRecord` call the fatal logger on any error, so
the loop terminates the process there: no later record is dispatched.
On success the issued calls accumulate in order. -/
def dispatchLoop (pubErr unpubErr : String → Option String) (action : String) :
    List String → Except String (List MdnsOp)
  | [] => Except.ok []
  | record :: rest =>
      if record = "" then dispatchLoop pubErr unpubErr action rest
      else if action == ActionAdded then
        match pubErr record with
        | some e => Except.error e
        | none =>
            match dispatchLoop pubErr unpubErr action rest with
            | Except.error e => Except.error e
            | Except.ok ops => Except.ok (MdnsOp.publish record :: ops)
      else if action == ActionDeleted then
        match unpubErr record with
        | some e => Except.error e
        | none =>
            match dispatchLoop pubErr unpubErr action rest with
            | Except.error e => Except.error e
            | Except.ok ops => Except.ok (MdnsOp.unpublish record :: ops)
      else dispatchLoop pubErr unpubErr action rest

/-! ## General helper lemmas -/

/-- Two record lines that share a middle chunk but differ within their
literal prefixes are distinct. -/
theorem chunk3_ne (a b s t T : String) (n : Nat)
    (ha : n ≤ a.data.length) (hb : n ≤ b.data.length)
    (hne : a.data.take n ≠ b.data.take n) :
    a ++ T ++ s ≠ b ++ T ++ t := by
  intro h
  have hd := congrArg String.data h
  simp only [String.data_append, List.append_assoc] at hd
  have h5 := congrArg (List.take n) hd
  rw [List.take_append_of_le_length ha, List.take_append_of_le_length hb] at h5
  exact hne h5

/-- A string with a nonempty right half is nonempty. -/
theorem append_ne_empty_of_right (a b : String) (hb : b ≠ "") : a ++ b ≠ "" := by
  intro h
  have hd := congrArg String.data h
  rw [String.data_append] at hd
  rcases List.append_eq_nil.mp hd with ⟨_, h2⟩
  exact hb (String.ext_iff.mpr (h2.trans rfl))

/-- The characters of a decimal digit are never spaces. -/
theorem digitChar_ne_space (n : Nat) (h : n < 10) : Nat.digitChar n ≠ ' ' := by
  interval_cases n <;> decide

/-- The accumulating digit loop behind `Nat.repr` never produces a
space. -/
theorem toDigitsCore_ne_space :
    ∀ (fuel n : Nat) (acc : List Char), (∀ c ∈ acc, c ≠ ' ') →
      ∀ c ∈ Nat.toDigitsCore 10 fuel n acc, c ≠ ' ' := by
  intro fuel
  induction fuel with
  | zero =>
      intro n acc hacc c hc
      exact hacc c (by simpa [Nat.toDigitsCore] using hc)
  | succ f ih =>
      intro n acc hacc c hc
      rw [Nat.toDigitsCore] at hc
      have hcons : ∀ x ∈ Nat.digitChar (n % 10) :: acc, x ≠ ' ' := by
        intro x hx
        rcases List.mem_cons.mp hx with rfl | hx'
        · exact digitChar_ne_space _ (Nat.mod_lt _ (by omega))
        · exact hacc x hx'
      split at hc
      · exact hcons c hc
      · exact ih (n / 10) _ hcons c hc

/-- Decimal renderings of naturals contain no space. -/
theorem repr_ne_space (n : Nat) : ∀ c ∈ (Nat.repr n).data, c ≠ ' ' := by
  have h : (Nat.repr n).data = Nat.toDigitsCore 10 (n + 1) n [] := rfl
  rw [h]
  exact toDigitsCore_ne_space (n + 1) n [] (by simp)

/-- The hex digits used for reverse IPv6 zones are never spaces. -/
theorem hexChar_ne_space (n : Nat) : hexChar n ≠ ' ' := by
  unfold hexChar
  rcases Nat.lt_or_ge n 16 with h | h
  · interval_cases n <;> decide
  · rw [List.getD_eq_default _ _ (by have hl : hexDigitChars.length = 16 := rfl; omega)]
    decide

/-- On a parsed IPv4-mapped address, `reverseAddress` produces the
reversed dotted-decimal octets with the IPv4 reverse-zone suffix. -/
theorem reverseAddress_v4 (s : String) (a b c d : Nat)
    (hp : parseIPGo s = some (v4Mapped a b c d)) :
    reverseAddress s = some (Nat.repr d ++ "." ++ Nat.repr c ++ "." ++ Nat.repr b ++ "." ++
      Nat.repr a ++ ".in-addr.arpa.") := by
  simp [reverseAddress, hp, v4Mapped, isV4Mapped]

/-- On a parsed non-IPv4-mapped address, `reverseAddress` produces the
reversed nibbles with the IPv6 reverse-zone suffix. -/
theorem reverseAddress_v6 (s : String) (ip : List Nat)
    (hp : parseIPGo s = some ip) (hv : isV4Mapped ip = false) :
    reverseAddress s = some (String.mk (ip.reverse.flatMap fun v =>
      [hexChar (v % 16), '.', hexChar (v / 16), '.']) ++ "ip6.arpa.") := by
  simp [reverseAddress, hp, hv]

/-- Every successfully parsed address has a nonempty, space-free reverse
zone name. -/
theorem reverseAddress_spec (s : String) (ip : List Nat) (hp : parseIPGo s = some ip) :
    ∃ rev, reverseAddress s = some rev ∧ rev ≠ "" ∧ ∀ c ∈ rev.data, c ≠ ' ' := by
  cases hv : isV4Mapped ip with
  | true =>
      have hrev : reverseAddress s = some (Nat.repr (ip.getD 15 0) ++ "." ++
          Nat.repr (ip.getD 14 0) ++ "." ++ Nat.repr (ip.getD 13 0) ++ "." ++
          Nat.repr (ip.getD 12 0) ++ ".in-addr.arpa.") := by
        simp [reverseAddress, hp, hv]
      refine ⟨_, hrev, append_ne_empty_of_right _ _ (by decide), ?_⟩
      intro x hx
      simp only [String.data_append, List.mem_append, List.append_assoc] at hx
      rcases hx with hx | hx | hx | hx | hx | hx | hx | hx
      · exact repr_ne_space _ x hx
      · exact (by decide : ∀ y ∈ (".").data, y ≠ ' ') x hx
      · exact repr_ne_space _ x hx
      · exact (by decide : ∀ y ∈ (".").data, y ≠ ' ') x hx
      · exact repr_ne_space _ x hx
      · exact (by decide : ∀ y ∈ (".").data, y ≠ ' ') x hx
      · exact repr_ne_space _ x hx
      · exact (by decide : ∀ y ∈ (".in-addr.arpa.").data, y ≠ ' ') x hx
  | false =>
      refine ⟨_, reverseAddress_v6 s ip hp hv, append_ne_empty_of_right _ _ (by decide), ?_⟩
      intro x hx
      simp only [String.data_append, List.mem_append] at hx
      rcases hx with hx | hx
      · have hx' : x ∈ ip.reverse.flatMap fun v =>
            [hexChar (v % 16), '.', hexChar (v / 16), '.'] := hx
        rcases List.mem_flatMap.mp hx' with ⟨v, _, hv'⟩
        simp only [List.mem_cons, List.not_mem_nil, or_false] at hv'
        rcases hv' with rfl | rfl | rfl | rfl
        · exact hexChar_ne_space _
        · decide
        · exact hexChar_ne_space _
        · decide
      · exact (by decide : ∀ y ∈ ("ip6.arpa.").data, y ≠ ' ') x hx

/-- Unfolding of `recordsForIP` once the address has parsed and its
family is enabled. -/
theorem recordsForIP_eq (cfg : Config) (r : Resource) (ipS : String) (ip : List Nat) (rt : String)
    (hp : parseIPGo ipS = some ip) (hrt : recordTypeFor cfg ip = some rt) :
    recordsForIP cfg r ipS =
      (r.Names.flatMap fun name =>
        [fwdDot name r.Namespace cfg.recordTTL rt (ipToString ip),
         fwdHy name r.Namespace cfg.recordTTL rt (ipToString ip)] ++
        (if (reverseAddress ipS).getD "" ≠ "" then
          [ptrDot ((reverseAddress ipS).getD "") cfg.recordTTL name r.Namespace,
           ptrHy ((reverseAddress ipS).getD "") cfg.recordTTL name r.Namespace]
        else [])) ++
      (if unqualCond cfg r then
        r.Names.flatMap fun name =>
          [fwdUn name cfg.recordTTL rt (ipToString ip)] ++
          (if (reverseAddress ipS).getD "" ≠ "" then
            [ptrUn ((reverseAddress ipS).getD "") cfg.recordTTL name]
          else [])
      else []) := by
  simp only [recordsForIP, hp, hrt]

/-- Every character accepted by the IPv4 grammar is a dot or a digit. -/
theorem parseIPv4_chars : ∀ (chars : List Char) (val digLen : Nat) (fields out : List Nat),
    parseIPv4Go chars val digLen fields = some out →
      ∀ c ∈ chars, c = '.' ∨ c.isDigit = true := by
  intro chars
  induction chars with
  | nil => intro _ _ _ _ _ c hc; simp at hc
  | cons c0 rest ih =>
      intro val digLen fields out h c hc
      simp only [parseIPv4Go] at h
      rcases List.mem_cons.mp hc with rfl | hcr
      · by_cases hdot : c = '.'
        · exact Or.inl hdot
        · rw [if_neg hdot] at h
          by_cases hd : c.isDigit
          · exact Or.inr hd
          · rw [if_neg hd] at h
            exact absurd h (by simp)
      · by_cases hdot : c0 = '.'
        · rw [if_pos hdot] at h
          split_ifs at h
          exact ih _ _ _ _ h c hcr
        · rw [if_neg hdot] at h
          by_cases hd : c0.isDigit
          · rw [if_pos hd] at h
            split_ifs at h
            exact ih _ _ _ _ h c hcr
          · rw [if_neg hd] at h
            exact absurd h (by simp)

/-- A successful IPv4 parse that still needs fields must contain a dot. -/
theorem parseIPv4_has_dot : ∀ (chars : List Char) (val digLen : Nat) (fields out : List Nat),
    parseIPv4Go chars val digLen fields = some out → fields.length < 3 → '.' ∈ chars := by
  intro chars
  induction chars with
  | nil =>
      intro val digLen fields out h hlen
      simp only [parseIPv4Go] at h
      rw [if_pos hlen] at h
      exact absurd h (by simp)
  | cons c0 rest ih =>
      intro val digLen fields out h hlen
      simp only [parseIPv4Go] at h
      by_cases hdot : c0 = '.'
      · rw [hdot]
        exact List.mem_cons_self _ _
      · rw [if_neg hdot] at h
        by_cases hd : c0.isDigit
        · rw [if_pos hd] at h
          split_ifs at h
          exact List.mem_cons_of_mem _ (ih _ _ _ _ h hlen)
        · rw [if_neg hd] at h
          exact absurd h (by simp)

/-- When every character is a dot or a digit and a dot occurs, the
dispatch scan of `ParseAddr` selects the IPv4 grammar. -/
theorem firstSpecial_dot (chars : List Char)
    (hall : ∀ c ∈ chars, c = '.' ∨ c.isDigit = true) (hdot : '.' ∈ chars) :
    firstSpecial chars = some '.' := by
  induction chars with
  | nil => simp at hdot
  | cons c0 rest ih =>
      simp only [firstSpecial]
      by_cases h0 : c0 = '.'
      · rw [if_pos (Or.inl h0), h0]
      · have hd : c0.isDigit = true := (hall c0 (List.mem_cons_self _ _)).resolve_left h0
        have hns : ¬(c0 = '.' ∨ c0 = ':' ∨ c0 = '%') := by
          rintro (rfl | rfl | rfl) <;> exact absurd hd (by decide)
        rw [if_neg hns]
        exact ih (fun c hc => hall c (List.mem_cons_of_mem _ hc))
          ((List.mem_cons.mp hdot).resolve_left (fun he => h0 he.symm))

/-- A string accepted by the IPv4 grammar goes down the IPv4 branch of
`ParseIP` and produces the IPv4-mapped bytes. -/
theorem parseIPGo_of_v4 (s : String) (a b c d : Nat)
    (h : parseIPv4Go s.data 0 0 [] = some [a, b, c, d]) :
    parseIPGo s = some (v4Mapped a b c d) := by
  have hdisp : firstSpecial s.data = some '.' :=
    firstSpecial_dot _ (parseIPv4_chars _ _ _ _ _ h) (parseIPv4_has_dot _ _ _ _ _ h (by simp))
  simp [parseIPGo, hdisp, h]

/-! ## Concrete fixtures shared by the claims -/

/-- Policy for the worked spec example: IPv4 on, IPv6 off, TTL `t`,
global without-namespace off, default namespace `default`. -/
def exampleCfg (t : Nat) : Config :=
  { exposeIPv4 := true, exposeIPv6 := false, recordTTL := t,
    withoutNamespace := false, defaultNamespace := "default" }

/-- Snapshot for the worked spec example: one name `foo` in namespace
`kube-system` with one IPv4 address, from a non-ingress source, without
the per-entity namespace override. -/
def exampleRes : Resource :=
  { SourceType := "service", Action := ActionAdded, Names := ["foo"],
    Namespace := "kube-system", IPs := ["10.0.0.5"], WithoutNamespace := false }

/-! ## Claim C1 -/

/-- C1: for the snapshot {names:[foo], namespace:kube-system,
ips:[10.0.0.5], non-ingress source, no override} under policy
{default-namespace:default, global without-namespace:false, IPv4 on,
IPv6 off, TTL t}, `constructRecords` returns exactly the four records
`foo.kube-system.local. t IN A 10.0.0.5`,
`foo-kube-system.local. t IN A 10.0.0.5`,
`5.0.0.10.in-addr.arpa. t IN PTR foo.kube-system.local.`,
`5.0.0.10.in-addr.arpa. t IN PTR foo-kube-system.local.` in that order,
and no unqualified `foo.local` record. -/
theorem c1_example_records (t : Nat) :
    constructRecords (exampleCfg t) exampleRes =
      ["foo.kube-system.local. " ++ Nat.repr t ++ " IN A 10.0.0.5",
       "foo-kube-system.local. " ++ Nat.repr t ++ " IN A 10.0.0.5",
       "5.0.0.10.in-addr.arpa. " ++ Nat.repr t ++ " IN PTR foo.kube-system.local.",
       "5.0.0.10.in-addr.arpa. " ++ Nat.repr t ++ " IN PTR foo-kube-system.local."] ∧
    ("foo.local. " ++ Nat.repr t ++ " IN A 10.0.0.5") ∉
      constructRecords (exampleCfg t) exampleRes := by
  have hlist : constructRecords (exampleCfg t) exampleRes =
      [fwdDot "foo" "kube-system" t "A" "10.0.0.5",
       fwdHy "foo" "kube-system" t "A" "10.0.0.5",
       ptrDot "5.0.0.10.in-addr.arpa." t "foo" "kube-system",
       ptrHy "5.0.0.10.in-addr.arpa." t "foo" "kube-system"] := rfl
  have hmain : constructRecords (exampleCfg t) exampleRes =
      ["foo.kube-system.local. " ++ Nat.repr t ++ " IN A 10.0.0.5",
       "foo-kube-system.local. " ++ Nat.repr t ++ " IN A 10.0.0.5",
       "5.0.0.10.in-addr.arpa. " ++ Nat.repr t ++ " IN PTR foo.kube-system.local.",
       "5.0.0.10.in-addr.arpa. " ++ Nat.repr t ++ " IN PTR foo-kube-system.local."] := by
    rw [hlist]
    simp [fwdDot, fwdHy, ptrDot, ptrHy, String.append_assoc]
  refine ⟨hmain, ?_⟩
  rw [hmain]
  intro hmem
  simp only [List.mem_cons, List.not_mem_nil, or_false] at hmem
  rcases hmem with h | h | h | h
  · exact chunk3_ne "foo.local. " "foo.kube-system.local. " _ _ _ 5
      (by decide) (by decide) (by decide) h
  · exact chunk3_ne "foo.local. " "foo-kube-system.local. " _ _ _ 4
      (by decide) (by decide) (by decide) h
  · exact chunk3_ne "foo.local. " "5.0.0.10.in-addr.arpa. " _ _ _ 1
      (by decide) (by decide) (by decide) h
  · exact chunk3_ne "foo.local. " "5.0.0.10.in-addr.arpa. " _ _ _ 1
      (by decide) (by decide) (by decide) h

/-! ## Claim C2 -/

/-- C2 counterexample: on the worked example with TTL 120 the emitted
record set contains a PTR record whose rdata is the hyphen-separated
qualified hostname, which differs from the dot-separated one — so it is
not the case that both PTR records reference the dot-separated form. -/
theorem c2_counterexample :
    "5.0.0.10.in-addr.arpa. 120 IN PTR foo-kube-system.local." ∈
      constructRecords (exampleCfg 120) exampleRes ∧
    "foo-kube-system.local." ≠ "foo.kube-system.local." := by
  constructor
  · have h : constructRecords (exampleCfg 120) exampleRes =
        ["foo.kube-system.local. 120 IN A 10.0.0.5",
         "foo-kube-system.local. 120 IN A 10.0.0.5",
         "5.0.0.10.in-addr.arpa. 120 IN PTR foo.kube-system.local.",
         "5.0.0.10.in-addr.arpa. 120 IN PTR foo-kube-system.local."] := rfl
    rw [h]
    simp
  · decide

/-- C2 amended: for every snapshot, name, and parsable enabled-family
address, the two PTR records are both emitted, one with the
dot-separated qualified hostname as rdata and one with the
hyphen-separated qualified hostname as rdata. -/
theorem c2_ptr_rdata_pair (cfg : Config) (r : Resource) (nm ipS : String) (ip : List Nat)
    (rt : String) (hnm : nm ∈ r.Names) (hip : ipS ∈ r.IPs)
    (hp : parseIPGo ipS = some ip) (hrt : recordTypeFor cfg ip = some rt) :
    ptrDot ((reverseAddress ipS).getD "") cfg.recordTTL nm r.Namespace ∈
        constructRecords cfg r ∧
    ptrHy ((reverseAddress ipS).getD "") cfg.recordTTL nm r.Namespace ∈
        constructRecords cfg r := by
  obtain ⟨rev, hrev, hne, -⟩ := reverseAddress_spec ipS ip hp
  have hgd : (reverseAddress ipS).getD "" = rev := by rw [hrev]; rfl
  constructor
  all_goals
    refine List.mem_flatMap.mpr ⟨ipS, hip, ?_⟩
    rw [recordsForIP_eq cfg r ipS ip rt hp hrt]
    refine List.mem_append_left _ ?_
    refine List.mem_flatMap.mpr ⟨nm, hnm, ?_⟩
    simp [hgd, hne]

/-- C2 witness: the amended PTR pair at the worked example. -/
theorem c2_witness :
    ptrDot ((reverseAddress "10.0.0.5").getD "") 120 "foo" "kube-system" ∈
        constructRecords (exampleCfg 120) exampleRes ∧
    ptrHy ((reverseAddress "10.0.0.5").getD "") 120 "foo" "kube-system" ∈
        constructRecords (exampleCfg 120) exampleRes :=
  c2_ptr_rdata_pair (exampleCfg 120) exampleRes "foo" "10.0.0.5" (v4Mapped 10 0 0 5) "A"
    (by simp [exampleRes]) (by simp [exampleRes]) (by rfl) (by rfl)

/-! ## Claim C4 -/

/-- C4: on every valid dotted-decimal IPv4 address string `a.b.c.d`,
`reverseAddress` succeeds and returns the four octets reversed,
dot-joined, with the IPv4 reverse-zone suffix appended. -/
theorem c4_reverse_ipv4 (s : String) (a b c d : Nat)
    (h : parseIPv4Go s.data 0 0 [] = some [a, b, c, d]) :
    reverseAddress s = some (Nat.repr d ++ "." ++ Nat.repr c ++ "." ++ Nat.repr b ++ "." ++
      Nat.repr a ++ ".in-addr.arpa.") :=
  reverseAddress_v4 s a b c d (parseIPGo_of_v4 s a b c d h)

/-- C4 witness: the concrete address 10.0.0.5. -/
theorem c4_witness : reverseAddress "10.0.0.5" = some "5.0.0.10.in-addr.arpa." := by
  have h := c4_reverse_ipv4 "10.0.0.5" 10 0 0 5 (by decide)
  rw [h]
  decide

/-! ## Length invariants of the IPv6 grammar -/

/-- The group loop never accumulates more than eight groups. -/
theorem v6loop_length : ∀ (fuel : Nat) (s : List Char) (acc : List Nat) (ell : Option Nat)
    (out : List Nat × Option Nat × List Char),
    v6loop fuel s acc ell = some out → acc.length ≤ 8 → out.1.length ≤ 8 := by
  intro fuel
  induction fuel with
  | zero => intro s acc ell out h hacc; simp [v6loop] at h
  | succ f ih =>
      intro s acc ell out h hacc
      rw [v6loop] at h
      by_cases h8 : 8 ≤ acc.length
      · rw [if_pos h8] at h
        simp only [Option.some.injEq] at h
        rw [← h]
        exact hacc
      · rw [if_neg h8] at h
        have hlt : acc.length < 8 := Nat.lt_of_not_le h8
        cases hg : readHexGroup s 0 0 with
        | none => rw [hg] at h; simp at h
        | some tri =>
            obtain ⟨g, off, rest⟩ := tri
            rw [hg] at h
            simp only at h
            by_cases hoff : off = 0
            · rw [if_pos hoff] at h; simp at h
            · rw [if_neg hoff] at h
              by_cases hdot : rest.head? = some '.'
              · rw [if_pos hdot] at h
                split_ifs at h with hc1 hc2
                cases hp4 : parseIPv4Go s 0 0 [] with
                | none => rw [hp4] at h; simp at h
                | some fs =>
                    rw [hp4] at h
                    rcases fs with _ | ⟨a, _ | ⟨b, _ | ⟨c, _ | ⟨d, _ | ⟨e, rest'⟩⟩⟩⟩⟩
                    · simp at h
                    · simp at h
                    · simp at h
                    · simp at h
                    · simp only [Option.some.injEq] at h
                      rw [← h]
                      simp only [List.length_append, List.length_cons, List.length_nil]
                      omega
                    · simp at h
              · rw [if_neg hdot] at h
                cases rest with
                | nil =>
                    simp only [Option.some.injEq] at h
                    rw [← h]
                    simp only [List.length_append, List.length_cons, List.length_nil]
                    omega
                | cons c rest2 =>
                    simp only at h
                    by_cases hc : c = ':'
                    · rw [if_pos hc] at h
                      cases rest2 with
                      | nil => simp at h
                      | cons c2 rest3 =>
                          simp only at h
                          by_cases hc2 : c2 = ':'
                          · rw [if_pos hc2] at h
                            by_cases hell : ell.isSome
                            · rw [if_pos hell] at h; simp at h
                            · rw [if_neg hell] at h
                              by_cases h3 : rest3.isEmpty
                              · rw [if_pos h3] at h
                                simp only [Option.some.injEq] at h
                                rw [← h]
                                simp only [List.length_append, List.length_cons,
                                  List.length_nil]
                                omega
                              · rw [if_neg h3] at h
                                exact ih _ _ _ _ h
                                  (by simp only [List.length_append, List.length_cons,
                                    List.length_nil]; omega)
                          · rw [if_neg hc2] at h
                            exact ih _ _ _ _ h
                              (by simp only [List.length_append, List.length_cons,
                                List.length_nil]; omega)
                    · rw [if_neg hc] at h
                      simp at h

/-- Byte expansion doubles the group count. -/
theorem groupsToBytes_length (gs : List Nat) : (groupsToBytes gs).length = 2 * gs.length := by
  induction gs with
  | nil => rfl
  | cons g rest ih => simp [groupsToBytes] at ih ⊢; omega

/-- The post-loop phase always produces sixteen bytes. -/
theorem v6finish_length (acc : List Nat) (ell : Option Nat) (rest : List Char)
    (hacc : acc.length ≤ 8) (ip : List Nat)
    (h : v6finish (some (acc, ell, rest)) = some ip) : ip.length = 16 := by
  simp only [v6finish] at h
  by_cases hr : rest ≠ []
  · rw [if_pos hr] at h; simp at h
  · rw [if_neg hr] at h
    by_cases hl : acc.length < 8
    · rw [if_pos hl] at h
      cases ell with
      | none => simp at h
      | some e =>
          simp only [Option.some.injEq] at h
          rw [← h, groupsToBytes_length]
          simp only [List.length_append, List.length_take, List.length_drop,
            List.length_replicate]
          omega
    · rw [if_neg hl] at h
      cases ell with
      | some e => simp at h
      | none =>
          simp only [Option.some.injEq] at h
          rw [← h, groupsToBytes_length]
          omega

/-- Every address accepted by the IPv6 grammar has sixteen bytes. -/
theorem parseIPv6_length (s : List Char) (ip : List Nat)
    (h : parseIPv6Go s = some ip) : ip.length = 16 := by
  unfold parseIPv6Go at h
  split_ifs at h
  rcases s with _ | ⟨c1, _ | ⟨c2, rest⟩⟩ <;> simp only at h
  · cases hv : v6loop (List.length [] + 1) [] [] none with
    | none => rw [hv] at h; simp [v6finish] at h
    | some tri =>
        obtain ⟨acc, ell, rst⟩ := tri
        rw [hv] at h
        exact v6finish_length acc ell rst (v6loop_length _ _ _ _ _ hv (by simp)) ip h
  · cases hv : v6loop (List.length [c1] + 1) [c1] [] none with
    | none => rw [hv] at h; simp [v6finish] at h
    | some tri =>
        obtain ⟨acc, ell, rst⟩ := tri
        rw [hv] at h
        exact v6finish_length acc ell rst (v6loop_length _ _ _ _ _ hv (by simp)) ip h
  · by_cases hcc : c1 = ':' ∧ c2 = ':'
    · rw [if_pos hcc] at h
      by_cases hre : rest.isEmpty
      · rw [if_pos hre] at h
        simp only [Option.some.injEq] at h
        rw [← h]
        rfl
      · rw [if_neg hre] at h
        cases hv : v6loop (rest.length + 1) rest [] (some 0) with
        | none => rw [hv] at h; simp [v6finish] at h
        | some tri =>
            obtain ⟨acc, ell, rst⟩ := tri
            rw [hv] at h
            exact v6finish_length acc ell rst (v6loop_length _ _ _ _ _ hv (by simp)) ip h
    · rw [if_neg hcc] at h
      cases hv : v6loop ((c1 :: c2 :: rest).length + 1) (c1 :: c2 :: rest) [] none with
      | none => rw [hv] at h; simp [v6finish] at h
      | some tri =>
          obtain ⟨acc, ell, rst⟩ := tri
          rw [hv] at h
          exact v6finish_length acc ell rst (v6loop_length _ _ _ _ _ hv (by simp)) ip h

/-- Every parsed address has sixteen bytes. -/
theorem parseIPGo_length (s : String) (ip : List Nat)
    (h : parseIPGo s = some ip) : ip.length = 16 := by
  unfold parseIPGo at h
  cases hfs : firstSpecial s.data with
  | none => rw [hfs] at h; simp at h
  | some sp =>
      rw [hfs] at h
      simp only at h
      by_cases hd : sp = '.'
      · rw [if_pos hd] at h
        cases hp4 : parseIPv4Go s.data 0 0 [] with
        | none => rw [hp4] at h; simp at h
        | some fs =>
            rw [hp4] at h
            rcases fs with _ | ⟨a, _ | ⟨b, _ | ⟨c, _ | ⟨d, _ | ⟨e, rest'⟩⟩⟩⟩⟩
            · simp at h
            · simp at h
            · simp at h
            · simp at h
            · simp only [Option.some.injEq] at h
              rw [← h]
              rfl
            · simp at h
      · rw [if_neg hd] at h
        by_cases hc : sp = ':'
        · rw [if_pos hc] at h
          exact parseIPv6_length _ _ h
        · rw [if_neg hc] at h
          simp at h

/-! ## Claim C5 -/

/-- The shape the spec ascribes to IPv6 reverse zone names: exactly 32
single-hex-digit labels, each followed by a dot, then `ip6.arpa.`. -/
def nibbleForm (r : String) : Prop :=
  ∃ labels : List Char, labels.length = 32 ∧ (∀ c ∈ labels, c ∈ hexDigitChars) ∧
    r.data = (labels.flatMap fun c => [c, '.']) ++ ("ip6.arpa.").data

/-- A two-element expansion doubles a list's length. -/
theorem flatMap_two_length {α β : Type} (f g : α → β) (l : List α) :
    (l.flatMap fun v => [f v, g v]).length = 2 * l.length := by
  induction l with
  | nil => rfl
  | cons x rest ih => simp only [List.flatMap_cons, List.length_append] at ih ⊢; simp [ih]; omega

/-- Interleaving dots after each nibble pair agrees with the byte walk
of `reverseAddress`. -/
theorem flatMap_pair_dot (f g : Nat → Char) (l : List Nat) :
    ((l.flatMap fun v => [f v, g v]).flatMap fun c => [c, '.']) =
      l.flatMap fun v => [f v, '.', g v, '.'] := by
  induction l with
  | nil => rfl
  | cons x rest ih => simp [List.flatMap_cons, ih]

/-- Every nibble character drawn from the hex table is in the table. -/
theorem hexChar_mem (n : Nat) : hexChar n ∈ hexDigitChars := by
  unfold hexChar
  rcases Nat.lt_or_ge n 16 with h | h
  · interval_cases n <;> decide
  · rw [List.getD_eq_default _ _ (by have hl : hexDigitChars.length = 16 := rfl; omega)]
    decide

/-- C5 counterexample: `::ffff:a00:5` is a valid IPv6 address string —
it parses through the IPv6 grammar (its first special character is a
colon) — yet `reverseAddress` returns the IPv4 reverse zone
`5.0.0.10.in-addr.arpa.`, which does not consist of 32 nibble labels
followed by `ip6.arpa.`. -/
theorem c5_counterexample :
    firstSpecial ("::ffff:a00:5").data = some ':' ∧
    parseIPGo "::ffff:a00:5" = some (v4Mapped 10 0 0 5) ∧
    reverseAddress "::ffff:a00:5" = some "5.0.0.10.in-addr.arpa." ∧
    ¬ nibbleForm "5.0.0.10.in-addr.arpa." := by
  refine ⟨by decide, by decide, by decide, ?_⟩
  rintro ⟨labels, h32, -, hdata⟩
  have hlen := congrArg List.length hdata
  rw [List.length_append] at hlen
  have h2 : (labels.flatMap fun c => [c, '.']).length = 2 * labels.length :=
    flatMap_two_length (fun c => c) (fun _ => '.') labels
  rw [h2, h32] at hlen
  have : ("5.0.0.10.in-addr.arpa.").data.length = 22 := by decide
  rw [this] at hlen
  have : ("ip6.arpa.").data.length = 9 := by decide
  rw [this] at hlen
  omega

/-- C5 amended: for every valid address string whose parsed form is not
IPv4-mapped (so `reverseAddress` takes the IPv6 path), the result is
exactly 32 single-hex-digit nibble labels — the address bytes walked in
reverse, low nibble before high nibble — each followed by a dot, then
`ip6.arpa.`, with no error. -/
theorem c5_reverse_ipv6 (s : String) (ip : List Nat)
    (hp : parseIPGo s = some ip) (hv : isV4Mapped ip = false) :
    ∃ r, reverseAddress s = some r ∧ nibbleForm r := by
  refine ⟨_, reverseAddress_v6 s ip hp hv, ?_⟩
  refine ⟨ip.reverse.flatMap fun v => [hexChar (v % 16), hexChar (v / 16)], ?_, ?_, ?_⟩
  · rw [flatMap_two_length]
    rw [List.length_reverse, parseIPGo_length s ip hp]
  · intro c hc
    rcases List.mem_flatMap.mp hc with ⟨v, -, hv'⟩
    simp only [List.mem_cons, List.not_mem_nil, or_false] at hv'
    rcases hv' with rfl | rfl <;> exact hexChar_mem _
  · rw [String.data_append, flatMap_pair_dot]

/-- C5 witness: the loopback address `::1` reverses to the nibble form. -/
theorem c5_witness :
    ∃ r, reverseAddress "::1" = some r ∧ nibbleForm r :=
  c5_reverse_ipv6 "::1" [0, 0, 0, 0, 0, 0, 0, 0, 0, 0, 0, 0, 0, 0, 0, 1]
    (by decide) (by decide)

/-! ## Claim C6 -/

/-- C6: with IPv6 publication disabled, every parsed non-IPv4-mapped
address contributes no records at all, and every emitted record derives
from an IPv4-mapped address — so zero AAAA records and zero PTR records
derived from an IPv6 address are emitted. -/
theorem c6_ipv6_disabled (cfg : Config) (r : Resource) (h6 : cfg.exposeIPv6 = false) :
    (∀ ipS ∈ r.IPs, ∀ ip, parseIPGo ipS = some ip → isV4Mapped ip = false →
        recordsForIP cfg r ipS = []) ∧
    (∀ rec ∈ constructRecords cfg r, ∃ ipS ∈ r.IPs, ∃ ip,
        parseIPGo ipS = some ip ∧ isV4Mapped ip = true ∧ rec ∈ recordsForIP cfg r ipS) := by
  have hskip : ∀ ipS ip, parseIPGo ipS = some ip → isV4Mapped ip = false →
      recordsForIP cfg r ipS = [] := by
    intro ipS ip hp hv
    simp [recordsForIP, hp, recordTypeFor, hv, h6]
  constructor
  · intro ipS _ ip hp hv
    exact hskip ipS ip hp hv
  · intro rec hrec
    rcases List.mem_flatMap.mp hrec with ⟨ipS, hip, hr⟩
    cases hp : parseIPGo ipS with
    | none =>
        have hempty : recordsForIP cfg r ipS = [] := by simp [recordsForIP, hp]
        rw [hempty] at hr
        simp at hr
    | some ip =>
        cases hv : isV4Mapped ip with
        | false =>
            rw [hskip ipS ip hp hv] at hr
            simp at hr
        | true => exact ⟨ipS, hip, ip, hp, hv, hr⟩

/-- C6 witness: a snapshot carrying an IPv6 literal under an
IPv4-only policy contributes nothing for that address. -/
theorem c6_witness :
    recordsForIP (exampleCfg 120) { exampleRes with IPs := ["::1", "10.0.0.5"] } "::1" = [] :=
  (c6_ipv6_disabled (exampleCfg 120) { exampleRes with IPs := ["::1", "10.0.0.5"] } rfl).1
    "::1" (by decide) [0, 0, 0, 0, 0, 0, 0, 0, 0, 0, 0, 0, 0, 0, 0, 1] (by decide) (by decide)

/-! ## Claims C7-C10: the pipeline and dispatcher -/

/-- Pointwise-equal functions give equal flat maps. -/
theorem flatMap_ext {α β : Type} (l : List α) (f g : α → List β)
    (h : ∀ a ∈ l, f a = g a) : l.flatMap f = l.flatMap g := by
  induction l with
  | nil => rfl
  | cons x rest ih =>
      simp only [List.flatMap_cons]
      rw [h x (List.mem_cons_self _ _), ih fun a ha => h a (List.mem_cons_of_mem _ ha)]

/-- Skipping empty records and wrapping the rest is a filtered map. -/
theorem guard_flatMap_map (f : String → MdnsOp) :
    ∀ l : List String,
      (l.flatMap fun record => if record = "" then [] else [f record]) =
        (l.filter fun rec => rec ≠ "").map f := by
  intro l
  induction l with
  | nil => rfl
  | cons x rest ih =>
      by_cases hx : x = ""
      · subst hx
        simpa using ih
      · simp [hx, ih]

/-- The consumer turns a Deleted snapshot into unpublish calls for its
nonempty records, in order. -/
theorem dispatchResource_deleted (cfg : Config) (r : Resource) (h : r.Action = ActionDeleted) :
    dispatchResource cfg r =
      ((constructRecords cfg r).filter fun rec => rec ≠ "").map MdnsOp.unpublish := by
  have h1 : (ActionDeleted == ActionAdded) = false := by decide
  have h2 : (ActionDeleted == ActionDeleted) = true := by decide
  unfold dispatchResource
  rw [h]
  rw [flatMap_ext _ _ (fun record => if record = "" then [] else [MdnsOp.unpublish record])
    (by intro a _; by_cases ha : a = "" <;> simp [ha, h1, h2])]
  exact guard_flatMap_map _ _

/-- The consumer turns an Added snapshot into publish calls for its
nonempty records, in order. -/
theorem dispatchResource_added (cfg : Config) (r : Resource) (h : r.Action = ActionAdded) :
    dispatchResource cfg r =
      ((constructRecords cfg r).filter fun rec => rec ≠ "").map MdnsOp.publish := by
  have h1 : (ActionAdded == ActionAdded) = true := by decide
  unfold dispatchResource
  rw [h]
  rw [flatMap_ext _ _ (fun record => if record = "" then [] else [MdnsOp.publish record])
    (by intro a _; by_cases ha : a = "" <;> simp [ha, h1])]
  exact guard_flatMap_map _ _

/-- In a list formed of non-publish calls followed by publish calls,
every publish index is strictly above every non-publish index. -/
theorem split_order (L A B : List MdnsOp) (hL : L = A ++ B)
    (hA : ∀ a ∈ A, a.isPublish = false) (hB : ∀ b ∈ B, b.isPublish = true) :
    ∀ (i j : Nat) (hi : i < L.length) (hj : j < L.length),
      (L.get ⟨i, hi⟩).isPublish = true →
      (L.get ⟨j, hj⟩).isPublish = false → j < i := by
  subst hL
  intro i j hi hj hpi hpj
  have hiA : A.length ≤ i := by
    by_contra hlt
    push_neg at hlt
    rw [List.get_eq_getElem, List.getElem_append_left hlt] at hpi
    have := hA _ (List.getElem_mem hlt)
    rw [this] at hpi
    exact absurd hpi (by simp)
  have hjA : j < A.length := by
    by_contra hge
    push_neg at hge
    rw [List.get_eq_getElem, List.getElem_append_right hge] at hpj
    have hlt2 : j - A.length < B.length := by
      have := List.length_append A B ▸ hj
      omega
    have := hB _ (List.getElem_mem hlt2)
    rw [this] at hpj
    exact absurd hpj (by simp)
  omega

/-- C7: on an update, the consumer issues the unpublish calls for every
record derived from the old object strictly before any publish call for
a record derived from the new object: the operation stream is exactly
the old-derived unpublishes followed by the new-derived publishes, so
every publish index lies strictly above every unpublish index. -/
theorem c7_update_retract_then_publish (cfg : Config) (oldObj newObj : Ingress) :
    ∃ dels pubs : List String,
      consumerOps cfg (onUpdateEmissions oldObj newObj) =
        dels.map MdnsOp.unpublish ++ pubs.map MdnsOp.publish ∧
      dels = ((buildRecords oldObj ActionUpdated).map fun r =>
          { r with Action := ActionDeleted }).flatMap
            (fun r => (constructRecords cfg r).filter fun rec => rec ≠ "") ∧
      pubs = ((buildRecords newObj ActionUpdated).map fun r =>
          { r with Action := ActionAdded }).flatMap
            (fun r => (constructRecords cfg r).filter fun rec => rec ≠ "") ∧
      ∀ (i j : Nat) (hi : i < (consumerOps cfg (onUpdateEmissions oldObj newObj)).length)
        (hj : j < (consumerOps cfg (onUpdateEmissions oldObj newObj)).length),
        ((consumerOps cfg (onUpdateEmissions oldObj newObj)).get ⟨i, hi⟩).isPublish = true →
        ((consumerOps cfg (onUpdateEmissions oldObj newObj)).get ⟨j, hj⟩).isPublish = false →
        j < i := by
  have hops : consumerOps cfg (onUpdateEmissions oldObj newObj) =
      (((buildRecords oldObj ActionUpdated).map fun r =>
          { r with Action := ActionDeleted }).flatMap
            (fun r => (constructRecords cfg r).filter fun rec => rec ≠ "")).map
        MdnsOp.unpublish ++
      (((buildRecords newObj ActionUpdated).map fun r =>
          { r with Action := ActionAdded }).flatMap
            (fun r => (constructRecords cfg r).filter fun rec => rec ≠ "")).map
        MdnsOp.publish := by
    unfold consumerOps onUpdateEmissions
    rw [List.flatMap_append]
    congr 1
    · rw [flatMap_ext _ (dispatchResource cfg)
        (fun r' => ((constructRecords cfg r').filter fun rec => rec ≠ "").map MdnsOp.unpublish)
        (by
          intro r' hr'
          rcases List.mem_map.mp hr' with ⟨r0, -, rfl⟩
          exact dispatchResource_deleted cfg _ rfl)]
      rw [← List.map_flatMap]
    · rw [flatMap_ext _ (dispatchResource cfg)
        (fun r' => ((constructRecords cfg r').filter fun rec => rec ≠ "").map MdnsOp.publish)
        (by
          intro r' hr'
          rcases List.mem_map.mp hr' with ⟨r0, -, rfl⟩
          exact dispatchResource_added cfg _ rfl)]
      rw [← List.map_flatMap]
  refine ⟨_, _, hops, rfl, rfl, ?_⟩
  refine split_order _ _ _ hops ?_ ?_
  · intro a ha
    rcases List.mem_map.mp ha with ⟨x, -, rfl⟩
    rfl
  · intro b hb
    rcases List.mem_map.mp hb with ⟨x, -, rfl⟩
    rfl

/-! ## Claim C3 -/

/-- Snapshot outside the default namespace whose sibling names collide:
the hyphen-qualified forward record of the name `a` in namespace `ns`
is literally the unqualified record string of the name `a-ns`. -/
def collideRes : Resource :=
  { SourceType := "service", Action := ActionAdded, Names := ["a", "a-ns"],
    Namespace := "ns", IPs := ["10.0.0.5"], WithoutNamespace := false }

/-- C3 counterexample: for the snapshot with names `a` and `a-ns` in
namespace `ns` — all valid DNS-1123 labels — the unqualified-publication
condition is false, yet both the unqualified forward record string and
the unqualified PTR string of the name `a-ns` occur in the output: they
coincide with the hyphen-qualified records of the sibling name `a`.  So
it is not the case that no unqualified record is emitted when the
condition fails. -/
theorem c3_counterexample :
    unqualCond (exampleCfg 120) collideRes = false ∧
    "a-ns" ∈ collideRes.Names ∧
    parseIPGo "10.0.0.5" = some (v4Mapped 10 0 0 5) ∧
    recordTypeFor (exampleCfg 120) (v4Mapped 10 0 0 5) = some "A" ∧
    fwdUn "a-ns" 120 "A" (ipToString (v4Mapped 10 0 0 5)) ∈
      constructRecords (exampleCfg 120) collideRes ∧
    ptrUn ((reverseAddress "10.0.0.5").getD "") 120 "a-ns" ∈
      constructRecords (exampleCfg 120) collideRes := by
  refine ⟨by decide, by decide, by decide, by rfl, ?_, ?_⟩ <;> decide

/-- C3 amended: the unqualified-publication branch of `constructRecords`
runs exactly under the condition.  When the condition holds, the
unqualified forward record and its PTR are emitted for every name and
parsable enabled-family address; when it fails, every emitted record is
one of the four qualified forms for some name and address, so nothing is
emitted by the unqualified branch — a string of unqualified shape can
then occur in the output only as a sibling name's hyphen-qualified
record. -/
theorem c3_unqual_branch (cfg : Config) (r : Resource) (nm ipS : String)
    (ip : List Nat) (rt : String)
    (hnm : nm ∈ r.Names) (hip : ipS ∈ r.IPs)
    (hp : parseIPGo ipS = some ip) (hrt : recordTypeFor cfg ip = some rt) :
    (unqualCond cfg r = true →
      fwdUn nm cfg.recordTTL rt (ipToString ip) ∈ constructRecords cfg r ∧
      ptrUn ((reverseAddress ipS).getD "") cfg.recordTTL nm ∈ constructRecords cfg r) ∧
    (unqualCond cfg r = false →
      ∀ rec ∈ constructRecords cfg r, ∃ nm' ∈ r.Names, ∃ ipS' ∈ r.IPs,
        ∃ ip' rt', parseIPGo ipS' = some ip' ∧ recordTypeFor cfg ip' = some rt' ∧
          (rec = fwdDot nm' r.Namespace cfg.recordTTL rt' (ipToString ip') ∨
           rec = fwdHy nm' r.Namespace cfg.recordTTL rt' (ipToString ip') ∨
           rec = ptrDot ((reverseAddress ipS').getD "") cfg.recordTTL nm' r.Namespace ∨
           rec = ptrHy ((reverseAddress ipS').getD "") cfg.recordTTL nm' r.Namespace)) := by
  obtain ⟨rev, hrev, hrevne, -⟩ := reverseAddress_spec ipS ip hp
  have hgd : (reverseAddress ipS).getD "" = rev := by rw [hrev]; rfl
  constructor
  · intro hcond
    rw [hgd]
    constructor
    · refine List.mem_flatMap.mpr ⟨ipS, hip, ?_⟩
      rw [recordsForIP_eq cfg r ipS ip rt hp hrt]
      refine List.mem_append_right _ ?_
      rw [if_pos hcond]
      refine List.mem_flatMap.mpr ⟨nm, hnm, ?_⟩
      simp
    · refine List.mem_flatMap.mpr ⟨ipS, hip, ?_⟩
      rw [recordsForIP_eq cfg r ipS ip rt hp hrt]
      refine List.mem_append_right _ ?_
      rw [if_pos hcond]
      refine List.mem_flatMap.mpr ⟨nm, hnm, ?_⟩
      rw [hgd, if_pos hrevne]
      simp
  · intro hcond rec hrec
    rcases List.mem_flatMap.mp hrec with ⟨ipS', hip', hr⟩
    cases hp' : parseIPGo ipS' with
    | none =>
        have hempty : recordsForIP cfg r ipS' = [] := by simp [recordsForIP, hp']
        rw [hempty] at hr
        simp at hr
    | some ip' =>
        cases hrt' : recordTypeFor cfg ip' with
        | none =>
            have hempty : recordsForIP cfg r ipS' = [] := by
              simp [recordsForIP, hp', hrt']
            rw [hempty] at hr
            simp at hr
        | some rt' =>
            rw [recordsForIP_eq cfg r ipS' ip' rt' hp' hrt'] at hr
            rw [if_neg (by simp [hcond])] at hr
            rw [List.append_nil] at hr
            rcases List.mem_flatMap.mp hr with ⟨nm', hnm', hmem⟩
            obtain ⟨rev', hrev', hrevne', -⟩ := reverseAddress_spec ipS' ip' hp'
            have hgd' : (reverseAddress ipS').getD "" = rev' := by rw [hrev']; rfl
            rw [hgd', if_pos hrevne'] at hmem
            simp only [List.cons_append, List.nil_append, List.mem_cons,
              List.not_mem_nil, or_false] at hmem
            refine ⟨nm', hnm', ipS', hip', ip', rt', hp', hrt', ?_⟩
            rw [hgd']
            exact hmem

/-- C3 witness: with the namespace equal to the default namespace the
condition holds, so the first branch yields the unqualified records. -/
theorem c3_witness :
    (unqualCond (exampleCfg 120) { exampleRes with Namespace := "default" } = true →
      fwdUn "foo" 120 "A" (ipToString (v4Mapped 10 0 0 5)) ∈
          constructRecords (exampleCfg 120) { exampleRes with Namespace := "default" } ∧
      ptrUn ((reverseAddress "10.0.0.5").getD "") 120 "foo" ∈
          constructRecords (exampleCfg 120) { exampleRes with Namespace := "default" }) ∧
    (unqualCond (exampleCfg 120) { exampleRes with Namespace := "default" } = false →
      ∀ rec ∈ constructRecords (exampleCfg 120) { exampleRes with Namespace := "default" },
        ∃ nm' ∈ ({ exampleRes with Namespace := "default" } : Resource).Names,
        ∃ ipS' ∈ ({ exampleRes with Namespace := "default" } : Resource).IPs,
        ∃ ip' rt', parseIPGo ipS' = some ip' ∧
          recordTypeFor (exampleCfg 120) ip' = some rt' ∧
          (rec = fwdDot nm' "default" 120 rt' (ipToString ip') ∨
           rec = fwdHy nm' "default" 120 rt' (ipToString ip') ∨
           rec = ptrDot ((reverseAddress ipS').getD "") 120 nm' "default" ∨
           rec = ptrHy ((reverseAddress ipS').getD "") 120 nm' "default")) :=
  c3_unqual_branch (exampleCfg 120) { exampleRes with Namespace := "default" }
    "foo" "10.0.0.5" (v4Mapped 10 0 0 5) "A"
    (by decide) (by decide) (by decide) (by rfl)

/-! ## Claim C8 -/

/-- A parsed host always has a nonempty base-domain label. -/
theorem tldParseModel_dom_ne (host sub dom : String)
    (h : tldParseModel host = some (sub, dom)) : dom ≠ "" := by
  unfold tldParseModel at h
  dsimp only at h
  split_ifs at h with h1 h2
  simp only [Option.some.injEq, Prod.mk.injEq] at h
  exact fun he => h2 (h.2.trans he)

/-- C8: every snapshot the ingress adapter emits has exactly one name,
that name is nonempty, and the IP list is nonempty. -/
theorem c8_snapshot_invariant (ing : Ingress) (action : String) (r : Resource)
    (h : r ∈ buildRecords ing action) :
    r.Names.length = 1 ∧ (∀ nm ∈ r.Names, nm ≠ "") ∧ r.IPs ≠ [] := by
  unfold buildRecords at h
  by_cases hip :
      (((ing.LoadBalancerIPs.filter fun lb => lb.IP ≠ "").map fun lb => lb.IP)).isEmpty
  · rw [if_pos hip] at h
    simp at h
  · rw [if_neg hip] at h
    rcases List.mem_flatMap.mp h with ⟨rule, -, hr⟩
    by_cases hhost : rule.Host = "" ∨ ¬ (hasLocalSuffix rule.Host)
    · rw [if_pos hhost] at hr
      simp at hr
    · rw [if_neg hhost] at hr
      cases htld : tldParseModel rule.Host with
      | none =>
          rw [htld] at hr
          simp at hr
      | some pair =>
          obtain ⟨sub, dom⟩ := pair
          rw [htld] at hr
          simp only [List.mem_singleton] at hr
          subst hr
          refine ⟨rfl, ?_, ?_⟩
          · intro nm hnm
            simp only [List.mem_singleton] at hnm
            subst hnm
            by_cases hsub : sub ≠ ""
            · rw [if_pos hsub]
              have : sub ++ "." ++ dom = (sub ++ ".") ++ dom := by
                rw [String.append_assoc]
              rw [this]
              exact append_ne_empty_of_right _ _ (tldParseModel_dom_ne _ _ _ htld)
            · rw [if_neg hsub]
              exact tldParseModel_dom_ne _ _ _ htld
          · intro he
            simp only at he
            apply hip
            rw [he]
            rfl

/-- C8 witness: a concrete Ingress with one `.local` rule and one
load-balancer IP yields a snapshot satisfying the invariant. -/
theorem c8_witness :
    (Resource.mk "ingress" ActionAdded ["foo"] "ns1" ["10.0.0.5"] false).Names.length = 1 ∧
    (∀ nm ∈ (Resource.mk "ingress" ActionAdded ["foo"] "ns1" ["10.0.0.5"] false).Names,
      nm ≠ "") ∧
    (Resource.mk "ingress" ActionAdded ["foo"] "ns1" ["10.0.0.5"] false).IPs ≠ [] :=
  c8_snapshot_invariant
    (Ingress.mk "ns1" [IngressRule.mk "foo.local"] [LBIngress.mk "10.0.0.5"])
    ActionAdded _ (by
      rw [show buildRecords
          (Ingress.mk "ns1" [IngressRule.mk "foo.local"] [LBIngress.mk "10.0.0.5"])
          ActionAdded =
          [Resource.mk "ingress" ActionAdded ["foo"] "ns1" ["10.0.0.5"] false] from rfl]
      exact List.mem_singleton_self _)

/-! ## Claim C9 -/

/-- Full characterization of the dispatch loop under a failing publish
operation: the process dies at the first nonempty record whose publish
errors and issues nothing further; with no failing record, every
nonempty record is published in order. -/
theorem dispatchLoop_added_eq (pubErr unpubErr : String → Option String) :
    ∀ l : List String,
      dispatchLoop pubErr unpubErr ActionAdded l =
        match (l.filter fun rec => rec ≠ "").find? (fun rec => (pubErr rec).isSome) with
        | some rec => Except.error ((pubErr rec).getD "")
        | none => Except.ok ((l.filter fun rec => rec ≠ "").map MdnsOp.publish) := by
  have hbeq : (ActionAdded == ActionAdded) = true := by decide
  intro l
  induction l with
  | nil => rfl
  | cons x rest ih =>
      by_cases hx : x = ""
      · subst hx
        rw [dispatchLoop]
        simpa using ih
      · rw [dispatchLoop, if_neg hx, if_pos hbeq]
        have hfil : (x :: rest).filter (fun rec => rec ≠ "") =
            x :: (rest.filter fun rec => rec ≠ "") := by
          simp [List.filter_cons, hx]
        rw [hfil]
        cases hp : pubErr x with
        | some e =>
            rw [List.find?_cons_of_pos _ (by simp [hp])]
            simp [hp]
        | none =>
            rw [List.find?_cons_of_neg _ (by simp [hp]), ih]
            cases hf : (rest.filter fun rec => rec ≠ "").find? (fun rec => (pubErr rec).isSome)
              with
            | some rec => rfl
            | none => rfl

/-- The same characterization for the unpublish side. -/
theorem dispatchLoop_deleted_eq (pubErr unpubErr : String → Option String) :
    ∀ l : List String,
      dispatchLoop pubErr unpubErr ActionDeleted l =
        match (l.filter fun rec => rec ≠ "").find? (fun rec => (unpubErr rec).isSome) with
        | some rec => Except.error ((unpubErr rec).getD "")
        | none => Except.ok ((l.filter fun rec => rec ≠ "").map MdnsOp.unpublish) := by
  have hbeq1 : (ActionDeleted == ActionAdded) = false := by decide
  have hbeq2 : (ActionDeleted == ActionDeleted) = true := by decide
  intro l
  induction l with
  | nil => rfl
  | cons x rest ih =>
      by_cases hx : x = ""
      · subst hx
        rw [dispatchLoop]
        simpa using ih
      · rw [dispatchLoop, if_neg hx, if_neg (by simp [hbeq1]), if_pos hbeq2]
        have hfil : (x :: rest).filter (fun rec => rec ≠ "") =
            x :: (rest.filter fun rec => rec ≠ "") := by
          simp [List.filter_cons, hx]
        rw [hfil]
        cases hp : unpubErr x with
        | some e =>
            rw [List.find?_cons_of_pos _ (by simp [hp])]
            simp [hp]
        | none =>
            rw [List.find?_cons_of_neg _ (by simp [hp]), ih]
            cases hf : (rest.filter fun rec => rec ≠ "").find? (fun rec => (unpubErr rec).isSome)
              with
            | some rec => rfl
            | none => rfl

/-- C9: for a dispatched snapshot, the loop terminates fatally exactly
at the first record for which the responder reports an error — no
retry, no buffering, no continuation — and when every call succeeds it
issues the full ordered sequence of calls. -/
theorem c9_responder_failure_fatal (pubErr unpubErr : String → Option String)
    (cfg : Config) (r : Resource) :
    (dispatchLoop pubErr unpubErr ActionAdded (constructRecords cfg r) =
      match ((constructRecords cfg r).filter fun rec => rec ≠ "").find?
          (fun rec => (pubErr rec).isSome) with
      | some rec => Except.error ((pubErr rec).getD "")
      | none => Except.ok
          (((constructRecords cfg r).filter fun rec => rec ≠ "").map MdnsOp.publish)) ∧
    (dispatchLoop pubErr unpubErr ActionDeleted (constructRecords cfg r) =
      match ((constructRecords cfg r).filter fun rec => rec ≠ "").find?
          (fun rec => (unpubErr rec).isSome) with
      | some rec => Except.error ((unpubErr rec).getD "")
      | none => Except.ok
          (((constructRecords cfg r).filter fun rec => rec ≠ "").map MdnsOp.unpublish)) :=
  ⟨dispatchLoop_added_eq pubErr unpubErr _, dispatchLoop_deleted_eq pubErr unpubErr _⟩

/-! ## Claim C10 -/

/-- The dispatch loop issues nothing for an action that is neither
Added nor Deleted. -/
theorem dispatchLoop_other (pubErr unpubErr : String → Option String) (a : String)
    (hA : (a == ActionAdded) = false) (hD : (a == ActionDeleted) = false) :
    ∀ l : List String, dispatchLoop pubErr unpubErr a l = Except.ok [] := by
  intro l
  induction l with
  | nil => rfl
  | cons x rest ih =>
      rw [dispatchLoop, hA, hD]
      by_cases hx : x = "" <;> simp [hx, ih]

/-- C10: a resource whose action is neither Added nor Deleted — for
example a raw Updated action reaching the dispatcher — produces no
publish and no unpublish call: its records are computed and silently
discarded, and the loop completes without touching the responder. -/
theorem c10_other_actions_no_ops (cfg : Config) (r : Resource)
    (pubErr unpubErr : String → Option String)
    (hA : r.Action ≠ ActionAdded) (hD : r.Action ≠ ActionDeleted) :
    dispatchResource cfg r = [] ∧
    dispatchLoop pubErr unpubErr r.Action (constructRecords cfg r) = Except.ok [] := by
  have hbA : (r.Action == ActionAdded) = false := beq_eq_false_iff_ne.mpr hA
  have hbD : (r.Action == ActionDeleted) = false := beq_eq_false_iff_ne.mpr hD
  constructor
  · unfold dispatchResource
    rw [flatMap_ext _ _ (fun _ => []) (by
      intro a _
      by_cases ha : a = "" <;> simp [ha, hbA, hbD])]
    simp
  · exact dispatchLoop_other pubErr unpubErr r.Action hbA hbD _

/-- C10 witness: an Updated-action snapshot produces no responder
calls. -/
theorem c10_witness :
    dispatchResource (exampleCfg 120) { exampleRes with Action := ActionUpdated } = [] ∧
    dispatchLoop (fun _ => none) (fun _ => none)
      ({ exampleRes with Action := ActionUpdated } : Resource).Action
      (constructRecords (exampleCfg 120) { exampleRes with Action := ActionUpdated }) =
      Except.ok [] :=
  c10_other_actions_no_ops (exampleCfg 120) { exampleRes with Action := ActionUpdated }
    (fun _ => none) (fun _ => none) (by decide) (by decide)

end ExternalMdns
